import Mathlib

/-!
Verification of the transcript-coding pipeline in `app.py`.

Python strings are embedded as lists of characters (`PyStr`), so that
`len`, slicing-free concatenation, `strip`, `lower`, `upper` and
substring containment translate to executable list functions.  The
docx document tree is embedded as lists of paragraphs, each holding its
raw text and a list of styling runs; a run's `rPr` element is the list
of its XML children, of which the code manipulates `w:highlight` and
`w:shd`.
-/

/-- Embedding of a Python `str`: the list of its characters. -/
abbrev PyStr := List Char

/-- The newline character used by `"\n".join` and chunk splitting. -/
def NL : Char := Char.ofNat 10

/-- Convenience conversion from a Lean string literal. -/
def pyStr (s : String) : PyStr := s.data

/-- Embedding of Python `str.strip()`: drop whitespace from both ends. -/
def pyStrip (s : PyStr) : PyStr :=
  ((s.dropWhile Char.isWhitespace).reverse.dropWhile Char.isWhitespace).reverse

/-- Embedding of Python `str.lower()`. -/
def pyLower (s : PyStr) : PyStr := s.map Char.toLower

/-- Embedding of Python `str.upper()`. -/
def pyUpper (s : PyStr) : PyStr := s.map Char.toUpper

/-- Embedding of Python `"\n".join(buffer)`. -/
def joinNL (buffer : List PyStr) : PyStr := List.intercalate [NL] buffer

/-- The loop of `chunk_text` (`app.py` lines 319-328): `chunks` and
`buffer` are the accumulators, `current` the running character count. -/
def chunkLoop (maxChars : Nat) : List PyStr → List PyStr → List PyStr → Nat → List PyStr
  | [], chunks, buffer, _current =>
      if buffer = [] then chunks else chunks ++ [joinNL buffer]
  | para :: rest, chunks, buffer, current =>
      if maxChars < current + para.length + 1 ∧ buffer ≠ [] then
        chunkLoop maxChars rest (chunks ++ [joinNL buffer]) [para] (para.length + 1)
      else
        chunkLoop maxChars rest chunks (buffer ++ [para]) (current + para.length + 1)

/-- Embedding of `chunk_text(paragraphs, max_chars)` (`app.py` 316-331). -/
def chunk_text (paragraphs : List PyStr) (max_chars : Nat) : List PyStr :=
  chunkLoop max_chars paragraphs [] [] 0

/-- The chunk boundary as claim C8 states it: the next paragraph joins the
current chunk whenever the chunk is non-empty and the joined length (with
the joining newline) stays at or below the budget; a new chunk begins only
when joining would push the joined length strictly beyond the budget. -/
def chunkClaimLoop (maxChars : Nat) : List PyStr → List PyStr → Option PyStr → List PyStr
  | [], chunks, none => chunks
  | [], chunks, some cur => chunks ++ [cur]
  | para :: rest, chunks, none => chunkClaimLoop maxChars rest chunks (some para)
  | para :: rest, chunks, some cur =>
      if maxChars < (cur ++ [NL] ++ para).length then
        chunkClaimLoop maxChars rest (chunks ++ [cur]) (some para)
      else
        chunkClaimLoop maxChars rest chunks (some (cur ++ [NL] ++ para))

/-- The chunker that claim C8's wording describes. -/
def chunk_text_claimed (paragraphs : List PyStr) (max_chars : Nat) : List PyStr :=
  chunkClaimLoop max_chars paragraphs [] none

/-- The chunk boundary as amended: a new chunk begins exactly when the
current chunk is non-empty and the joined length (with the joining newline)
would reach or exceed the budget. -/
def chunkAmendedLoop (maxChars : Nat) : List PyStr → List PyStr → Option PyStr → List PyStr
  | [], chunks, none => chunks
  | [], chunks, some cur => chunks ++ [cur]
  | para :: rest, chunks, none => chunkAmendedLoop maxChars rest chunks (some para)
  | para :: rest, chunks, some cur =>
      if maxChars ≤ (cur ++ [NL] ++ para).length then
        chunkAmendedLoop maxChars rest (chunks ++ [cur]) (some para)
      else
        chunkAmendedLoop maxChars rest chunks (some (cur ++ [NL] ++ para))

/-- The chunker that the amended claim C8 describes. -/
def chunk_text_amended (paragraphs : List PyStr) (max_chars : Nat) : List PyStr :=
  chunkAmendedLoop max_chars paragraphs [] none

/-- A child element of a run's `rPr` node, as far as the code inspects it:
`w:highlight` and `w:shd` elements are distinguished; any other child is
kept abstract by its tag. -/
inductive RPrChild
  | highlight (val : String)
  | shd (val : String) (fill : String)
  | other (tag : String)
deriving DecidableEq, Repr

/-- Whether an `rPr` child is a `w:highlight` element. -/
def RPrChild.isHighlight : RPrChild → Bool
  | .highlight _ => true
  | _ => false

/-- Whether an `rPr` child is a `w:shd` shading element. -/
def RPrChild.isShd : RPrChild → Bool
  | .shd _ _ => true
  | _ => false

/-- A docx styling run: its text, bold flag, and the children of its `rPr`
properties element (an absent `rPr` is the empty list, as created on demand
by `get_or_add_rPr`). -/
structure Run where
  text : PyStr
  bold : Bool
  rPr : List RPrChild
deriving DecidableEq, Repr

/-- Embedding of `apply_shading(run, color_hex)` (`app.py` 334-346): remove
every `w:highlight` child of `rPr`, then append a `w:shd` element with
`w:val="clear"` and the given fill. -/
def apply_shading (run : Run) (color_hex : String) : Run :=
  let rpr := run.rPr.filter (fun child => !child.isHighlight)
  { run with rPr := rpr ++ [RPrChild.shd "clear" color_hex] }

/-- A docx paragraph: its full text (as `paragraph.text` reports it, which
can include content such as hyperlink runs that the `paragraph.runs`
collection omits) and its list of styling runs. -/
structure Paragraph where
  text : PyStr
  runs : List Run
deriving DecidableEq, Repr

/-- Embedding of the `QuoteMatch` dataclass (`app.py` 111-114). -/
structure QuoteMatch where
  category : PyStr
  quote : PyStr
deriving DecidableEq, Repr

/-- Embedding of `CATEGORY_DETAILS` (`app.py` 49-82): code, title, color. -/
def CATEGORY_DETAILS : List (PyStr × String × String) :=
  [ (pyStr "A", "Background & Context", "FFF2CC"),
    (pyStr "B", "Feasibility & Practical Implementation", "DAEEF3"),
    (pyStr "C", "Validity & Learning Assurance", "E2F0D9"),
    (pyStr "D", "Disciplinary Relevance", "FCE4D6"),
    (pyStr "E", "Student Engagement & Observations", "E4DFEC"),
    (pyStr "F", "Reflection & Improvement", "D9E1F2"),
    (pyStr "G", "Sustainability & Future Use", "F2F2F2"),
    (pyStr "H", "Additional Insights", "D5E8D4") ]

/-- The category codes (the keys of `CATEGORY_DETAILS`). -/
def categoryCodes : List PyStr := CATEGORY_DETAILS.map (fun e => e.1)

/-- The color recorded for a category code
(`CATEGORY_DETAILS[match.category]["color"]`). -/
def categoryColor (code : PyStr) : String :=
  match CATEGORY_DETAILS.find? (fun e => e.1 == code) with
  | some e => e.2.2
  | none => ""

/-- Embedding of Python's substring test `needle in hay`. -/
def pyIn (needle hay : PyStr) : Bool := decide (needle <:+: hay)

/-- Whether `highlight_quote` marks paragraph `p`, given the trimmed and
lowered quote `needle` (`app.py` 358-362): the paragraph's trimmed text is
non-empty and contains the needle as a substring, case-insensitively. -/
def paraHit (needle : PyStr) (p : Paragraph) : Bool :=
  let text := pyStrip p.text
  !text.isEmpty && pyIn needle (pyLower text)

/-- Shade every styling run of a paragraph (the inner loop of
`highlight_quote`, `app.py` 363-364). -/
def shadeParagraph (p : Paragraph) (color_hex : String) : Paragraph :=
  { p with runs := p.runs.map (fun r => apply_shading r color_hex) }

/-- Embedding of `highlight_quote(document, quote, color_hex)` (`app.py`
349-366): returns the updated paragraph list together with the `applied`
flag. -/
def highlight_quote (document : List Paragraph) (quote : PyStr) (color_hex : String) :
    List Paragraph × Bool :=
  let normalized := pyStrip quote
  if normalized.isEmpty then (document, false)
  else
    let needle := pyLower normalized
    (document.map (fun p => if paraHit needle p then shadeParagraph p color_hex else p),
      document.any (paraHit needle))

/-- One iteration of the loop of `_apply_highlights` (`app.py` 263-266). -/
def applyStep (acc : List Paragraph × Nat) (m : QuoteMatch) : List Paragraph × Nat :=
  let res := highlight_quote acc.1 m.quote (categoryColor m.category)
  (res.1, acc.2 + if res.2 then 1 else 0)

/-- Embedding of `TranscriptCoderApp._apply_highlights` (`app.py` 261-267):
fold `highlight_quote` over the matches, counting those that applied. -/
def apply_highlights (document : List Paragraph) (matchList : List QuoteMatch) :
    List Paragraph × Nat :=
  matchList.foldl applyStep (document, 0)

/-- A paragraph freshly added by `add_paragraph`/`add_run`: its text is the
concatenation of the texts of its runs. -/
def mkPara (runs : List Run) : Paragraph :=
  { text := (runs.map Run.text).flatten, runs := runs }

/-- The paragraphs `_append_legend` adds (`app.py` 274-283): a bold
"Coding legend" title, then one entry per category whose sample run carries
that category's shading. -/
def legendParas : List Paragraph :=
  mkPara [{ text := pyStr "Coding legend", bold := true, rPr := [] }] ::
    CATEGORY_DETAILS.map (fun e =>
      mkPara
        [ { text := e.1 ++ pyStr ". " ++ pyStr e.2.1 ++ pyStr " – ",
            bold := false, rPr := [] },
          apply_shading { text := pyStr "example", bold := false, rPr := [] } e.2.2 ])

/-- Embedding of `TranscriptCoderApp._append_legend` (`app.py` 274-283). -/
def append_legend (document : List Paragraph) : List Paragraph :=
  document ++ legendParas

/-- One `{category, quotes}` object of a decoded response; a quote may be
JSON `null` (`none`), which the code guards with `quote or ""`. -/
structure MatchEntry where
  category : PyStr
  quotes : List (Option PyStr)
deriving DecidableEq, Repr

/-- A decoded JSON response, reduced to the fields the code reads:
its `matches` list (`parsed.get("matches", [])`). -/
structure ParsedResponse where
  matchList : List MatchEntry
deriving DecidableEq, Repr

/-- The parsing loop of `_code_chunk` (`app.py` 249-257): trim and
upper-case each category, silently drop entries whose category is not in
`CATEGORY_DETAILS`, trim each quote and drop those left empty. -/
def parse_matches (parsed : ParsedResponse) : List QuoteMatch :=
  (parsed.matchList.map (fun item =>
    let category := pyUpper (pyStrip item.category)
    if categoryCodes.contains category then
      item.quotes.filterMap (fun q =>
        let quote := pyStrip (q.getD [])
        if quote.isEmpty then none else some { category := category, quote := quote })
    else [])).flatten

/-- What the remote call returned for one chunk: the raw content string and
the result of `json.loads` on it (`none` models a `JSONDecodeError`). -/
structure ChunkResponse where
  raw : PyStr
  decoded : Option ParsedResponse

/-- The errors `_process_document` can raise in the embedded fragment:
`ValueError("No text found in the document.")` and the
`ValueError` carrying the raw model response (`MalformedResponse`). -/
inductive PipelineError
  | emptyDocument
  | malformedResponse (raw : PyStr)
deriving DecidableEq, Repr

/-- Embedding of `_code_chunk` once the remote call has returned
(`app.py` 243-259): a decode failure raises an error carrying the raw
content, otherwise the parsed matches are returned. -/
def code_chunk (response : ChunkResponse) : Except PipelineError (List QuoteMatch) :=
  match response.decoded with
  | none => Except.error (PipelineError.malformedResponse response.raw)
  | some parsed => Except.ok (parse_matches parsed)

/-- The chunk loop of `_process_document` (`app.py` 197-199): code every
chunk in order with the oracle's responses, accumulating matches and
aborting at the first malformed response. -/
def codeChunks (oracle : Nat → ChunkResponse) :
    List PyStr → Nat → Except PipelineError (List QuoteMatch)
  | [], _ => Except.ok []
  | _chunk :: rest, i =>
      match code_chunk (oracle i) with
      | Except.error e => Except.error e
      | Except.ok ms =>
          match codeChunks oracle rest (i + 1) with
          | Except.error e => Except.error e
          | Except.ok more => Except.ok (ms ++ more)

/-- The paragraph extraction of `_process_document` (`app.py` 192):
the non-empty stripped paragraph texts, in document order. -/
def extractParagraphs (document : List Paragraph) : List PyStr :=
  document.filterMap (fun p =>
    let t := pyStrip p.text
    if t.isEmpty then none else some t)

/-- Embedding of `_process_document` (`app.py` 188-210), with the remote
service as an oracle mapping each chunk index to its response.  On success
it returns the document as saved plus the applied-highlight count; an error
means the run aborted before `document.save`, so no output was written. -/
def process_document (document : List Paragraph) (oracle : Nat → ChunkResponse) :
    Except PipelineError (List Paragraph × Nat) :=
  let paragraphs := extractParagraphs document
  if paragraphs.isEmpty then Except.error PipelineError.emptyDocument
  else
    match codeChunks oracle (chunk_text paragraphs 3500) 0 with
    | Except.error e => Except.error e
    | Except.ok ms =>
        if ms.isEmpty then Except.ok (append_legend document, 0)
        else
          let res := apply_highlights document ms
          Except.ok (append_legend res.1, res.2)

/-- A decoded JSON value, as `json.loads` can return it: the dynamic model
used to settle how the code behaves on decodable but schema-violating
content. -/
inductive PyJson
  | str (s : PyStr)
  | num (n : Int)
  | boolean (b : Bool)
  | null
  | arr (xs : List PyJson)
  | obj (fields : List (PyStr × PyJson))

/-- Python exceptions raised by the dynamic field accesses in `_code_chunk`;
unlike the `ValueError` raised for undecodable content, neither carries the
raw response payload. -/
inductive DynError
  | attributeError
  | typeError

/-- Python `value.get(key, default)`: only dicts have `.get`; any other
receiver raises `AttributeError`. -/
def pyGet (v : PyJson) (key : PyStr) (dflt : PyJson) : Except DynError PyJson :=
  match v with
  | PyJson.obj fields =>
      match fields.find? (fun kv => kv.1 == key) with
      | some kv => Except.ok kv.2
      | none => Except.ok dflt
  | _ => Except.error DynError.attributeError

/-- Python `for x in value`: lists yield their elements, strings their
characters (as one-character strings), dicts their keys; numbers, booleans
and `None` raise `TypeError`. -/
def pyIter (v : PyJson) : Except DynError (List PyJson) :=
  match v with
  | PyJson.arr xs => Except.ok xs
  | PyJson.str s => Except.ok (s.map (fun c => PyJson.str [c]))
  | PyJson.obj fields => Except.ok (fields.map (fun kv => PyJson.str kv.1))
  | _ => Except.error DynError.typeError

/-- Python truthiness of a decoded JSON value (used by `quote or ""`). -/
def pyTruthy : PyJson → Bool
  | PyJson.str s => !s.isEmpty
  | PyJson.num n => n != 0
  | PyJson.boolean b => b
  | PyJson.null => false
  | PyJson.arr xs => !xs.isEmpty
  | PyJson.obj fields => !fields.isEmpty

/-- Python `value.strip()`: only strings have `.strip`; any other receiver
raises `AttributeError`. -/
def pyStripAttr (v : PyJson) : Except DynError PyStr :=
  match v with
  | PyJson.str s => Except.ok (pyStrip s)
  | _ => Except.error DynError.attributeError

/-- The quote loop of `_code_chunk` (`app.py` 254-257) over dynamic values:
`quote = (quote or "").strip()`, with quotes empty after trimming
dropped. -/
def dynQuoteLoop (category : PyStr) :
    List PyJson → Except DynError (List QuoteMatch)
  | [] => Except.ok []
  | quote :: rest => do
      let q := if pyTruthy quote then quote else PyJson.str []
      let qs ← pyStripAttr q
      let more ← dynQuoteLoop category rest
      if qs.isEmpty then return more
      else return ({ category := category, quote := qs } : QuoteMatch) :: more

/-- The item loop of `_code_chunk` (`app.py` 250-257) over dynamic values:
the category is fetched, stripped and upper-cased, and unknown categories
are skipped with `continue` before `quotes` is ever read. -/
def dynItemLoop : List PyJson → Except DynError (List QuoteMatch)
  | [] => Except.ok []
  | item :: rest => do
      let catVal ← pyGet item (pyStr "category") (PyJson.str [])
      let catStr ← pyStripAttr catVal
      let category := pyUpper catStr
      if categoryCodes.contains category then
        let quotesVal ← pyGet item (pyStr "quotes") (PyJson.arr [])
        let quotes ← pyIter quotesVal
        let here ← dynQuoteLoop category quotes
        let more ← dynItemLoop rest
        return here ++ more
      else
        dynItemLoop rest

/-- The parsing of `_code_chunk` (`app.py` 249-257) over an arbitrary
decoded JSON value, with Python's dynamic semantics for `.get`, iteration,
truthiness and `.strip()`. -/
def parseMatchesDyn (parsed : PyJson) : Except DynError (List QuoteMatch) := do
  let matchesVal ← pyGet parsed (pyStr "matches") (PyJson.arr [])
  let items ← pyIter matchesVal
  dynItemLoop items

/-- What the remote call returned for one chunk, in the dynamic model: the
raw content and the result of `json.loads` on it (`none` models a
`JSONDecodeError`, `some` an arbitrary decoded JSON value). -/
structure ChunkResponseDyn where
  raw : PyStr
  decoded : Option PyJson

/-- Errors of the pipeline in the dynamic model: the empty-document
`ValueError`, the `ValueError` carrying the raw model response, and the
payload-free dynamic errors raised on schema-violating shapes. -/
inductive PipelineErrorDyn
  | emptyDocument
  | malformedResponse (raw : PyStr)
  | dynError (e : DynError)

/-- `_code_chunk` (`app.py` 243-259) in the dynamic model. -/
def code_chunk_dyn (response : ChunkResponseDyn) :
    Except PipelineErrorDyn (List QuoteMatch) :=
  match response.decoded with
  | none => Except.error (PipelineErrorDyn.malformedResponse response.raw)
  | some parsed =>
      match parseMatchesDyn parsed with
      | Except.error e => Except.error (PipelineErrorDyn.dynError e)
      | Except.ok ms => Except.ok ms

/-- The chunk loop of `_process_document` (`app.py` 197-199) in the dynamic
model. -/
def codeChunksDyn (oracle : Nat → ChunkResponseDyn) :
    List PyStr → Nat → Except PipelineErrorDyn (List QuoteMatch)
  | [], _ => Except.ok []
  | _chunk :: rest, i =>
      match code_chunk_dyn (oracle i) with
      | Except.error e => Except.error e
      | Except.ok ms =>
          match codeChunksDyn oracle rest (i + 1) with
          | Except.error e => Except.error e
          | Except.ok more => Except.ok (ms ++ more)

/-- `_process_document` (`app.py` 188-210) in the dynamic model: on success
it returns the document as saved plus the applied-highlight count; an error
means the run aborted before `document.save`, so no output was written. -/
def process_document_dyn (document : List Paragraph)
    (oracle : Nat → ChunkResponseDyn) :
    Except PipelineErrorDyn (List Paragraph × Nat) :=
  let paragraphs := extractParagraphs document
  if paragraphs.isEmpty then Except.error PipelineErrorDyn.emptyDocument
  else
    match codeChunksDyn oracle (chunk_text paragraphs 3500) 0 with
    | Except.error e => Except.error e
    | Except.ok ms =>
        if ms.isEmpty then Except.ok (append_legend document, 0)
        else
          let res := apply_highlights document ms
          Except.ok (append_legend res.1, res.2)

/-- The decoded response `\x7b"matches": [\x7b"category": "a",
"quotes": "Hi"\x7d]\x7d`, whose `quotes` value is a string rather than a
list of strings — well-formed JSON that violates the expected schema. -/
def strQuotesResponse : PyJson :=
  PyJson.obj [(pyStr "matches", PyJson.arr
    [PyJson.obj [(pyStr "category", PyJson.str (pyStr "a")),
                 (pyStr "quotes", PyJson.str (pyStr "Hi"))]])]

/-- The decoded response `[1, 2]`: well-formed JSON that is a list rather
than the expected object. -/
def topListResponse : PyJson := PyJson.arr [PyJson.num 1, PyJson.num 2]

/-- A one-paragraph document used to exercise the dynamic pipeline. -/
def docHi : List Paragraph :=
  [{ text := pyStr "Hi",
     runs := [{ text := pyStr "Hi", bold := false, rPr := [] }] }]

/-! Chunker lemmas -/

/-- The running `current` counter of `chunk_text`: each buffered paragraph
contributes its length plus one. -/
def chunkWeight (buffer : List PyStr) : Nat :=
  (buffer.map (fun p => p.length + 1)).sum

theorem chunkWeight_nil : chunkWeight [] = 0 := rfl

theorem chunkWeight_single (p : PyStr) : chunkWeight [p] = p.length + 1 := by
  simp [chunkWeight]

theorem chunkWeight_append_single (l : List PyStr) (p : PyStr) :
    chunkWeight (l ++ [p]) = chunkWeight l + (p.length + 1) := by
  simp [chunkWeight]

theorem joinNL_single (p : PyStr) : joinNL [p] = p := by
  simp [joinNL, List.intercalate]

theorem joinNL_cons_cons (b c : PyStr) (cs : List PyStr) :
    joinNL (b :: c :: cs) = b ++ [NL] ++ joinNL (c :: cs) := by
  simp [joinNL, List.intercalate, List.intersperse]

theorem joinNL_append_single (l : List PyStr) (p : PyStr) (h : l ≠ []) :
    joinNL (l ++ [p]) = joinNL l ++ [NL] ++ p := by
  induction l with
  | nil => exact absurd rfl h
  | cons b bs ih =>
    cases bs with
    | nil => simp [joinNL_cons_cons, joinNL_single]
    | cons c cs =>
      have hne : c :: cs ≠ [] := by simp
      calc joinNL ((b :: c :: cs) ++ [p])
          = b ++ [NL] ++ joinNL ((c :: cs) ++ [p]) := by
            simpa using joinNL_cons_cons b c (cs ++ [p])
        _ = b ++ [NL] ++ (joinNL (c :: cs) ++ [NL] ++ p) := by rw [ih hne]
        _ = (b ++ [NL] ++ joinNL (c :: cs)) ++ [NL] ++ p := by
            simp [List.append_assoc]
        _ = joinNL (b :: c :: cs) ++ [NL] ++ p := by rw [joinNL_cons_cons]

theorem joinNL_length (l : List PyStr) (h : l ≠ []) :
    (joinNL l).length + 1 = chunkWeight l := by
  induction l with
  | nil => exact absurd rfl h
  | cons b bs ih =>
    cases bs with
    | nil => simp [joinNL_single, chunkWeight_single]
    | cons c cs =>
      rw [joinNL_cons_cons]
      have hlen := ih (by simp)
      have h2 : (b ++ [NL] ++ joinNL (c :: cs)).length
          = b.length + 1 + (joinNL (c :: cs)).length := by simp; omega
      have h3 : chunkWeight (b :: c :: cs) = b.length + 1 + chunkWeight (c :: cs) := by
        simp [chunkWeight]
      omega

/-- Structural invariant of the `chunk_text` loop: starting from a buffer
whose weight fits the budget whenever it holds at least two paragraphs, the
produced chunks are the newline-joins of a partition of `buffer ++ paras`
into non-empty consecutive groups, every multi-paragraph group fitting the
budget. -/
theorem chunkLoop_groups (B : Nat) (paras : List PyStr) :
    ∀ buffer chunks : List PyStr,
      (2 ≤ buffer.length → chunkWeight buffer ≤ B) →
      ∃ groups : List (List PyStr),
        chunkLoop B paras chunks buffer (chunkWeight buffer)
            = chunks ++ groups.map joinNL ∧
        groups.flatten = buffer ++ paras ∧
        ∀ g ∈ groups, g ≠ [] ∧ (2 ≤ g.length → chunkWeight g ≤ B) := by
  induction paras with
  | nil =>
    intro buffer chunks hinv
    by_cases hb : buffer = []
    · subst hb
      exact ⟨[], by simp [chunkLoop], by simp, by simp⟩
    · refine ⟨[buffer], ?_, by simp, ?_⟩
      · simp [chunkLoop, hb]
      · intro g hg
        obtain rfl := List.mem_singleton.mp hg
        exact ⟨hb, hinv⟩
  | cons para rest ih =>
    intro buffer chunks hinv
    by_cases hc : B < chunkWeight buffer + para.length + 1 ∧ buffer ≠ []
    · have h1 : chunkLoop B (para :: rest) chunks buffer (chunkWeight buffer)
          = chunkLoop B rest (chunks ++ [joinNL buffer]) [para] (chunkWeight [para]) := by
        simp only [chunkLoop, if_pos hc, chunkWeight_single]
      obtain ⟨groups, hg1, hg2, hg3⟩ := ih [para] (chunks ++ [joinNL buffer]) (by simp)
      refine ⟨buffer :: groups, ?_, ?_, ?_⟩
      · rw [h1, hg1]; simp
      · simp [hg2]
      · intro g hg
        rcases List.mem_cons.mp hg with rfl | hg'
        · exact ⟨hc.2, hinv⟩
        · exact hg3 g hg'
    · have hle : buffer ≠ [] → chunkWeight buffer + para.length + 1 ≤ B := by
        intro hb
        rcases not_and_or.mp hc with h | h
        · omega
        · exact absurd hb h
      have hc' : ¬(B < chunkWeight buffer + (para.length + 1) ∧ buffer ≠ []) := by
        rw [← Nat.add_assoc]; exact hc
      have h1 : chunkLoop B (para :: rest) chunks buffer (chunkWeight buffer)
          = chunkLoop B rest chunks (buffer ++ [para]) (chunkWeight (buffer ++ [para])) := by
        simp only [chunkLoop, chunkWeight_append_single, Nat.add_assoc]
        rw [if_neg hc']
      have hinv' : 2 ≤ (buffer ++ [para]).length → chunkWeight (buffer ++ [para]) ≤ B := by
        intro hlen2
        have hb : buffer ≠ [] := by
          intro hbe; subst hbe; simp at hlen2
        have := hle hb
        rw [chunkWeight_append_single]; omega
      obtain ⟨groups, hg1, hg2, hg3⟩ := ih (buffer ++ [para]) chunks hinv'
      refine ⟨groups, ?_, ?_, hg3⟩
      · rw [h1, hg1]
      · rw [hg2]; simp

/-- `chunk_text P B` is the list of newline-joins of a partition of `P`
into non-empty consecutive groups, every multi-paragraph group fitting the
budget. -/
theorem chunk_text_groups (P : List PyStr) (B : Nat) :
    ∃ groups : List (List PyStr),
      chunk_text P B = groups.map joinNL ∧
      groups.flatten = P ∧
      ∀ g ∈ groups, g ≠ [] ∧ (2 ≤ g.length → chunkWeight g ≤ B) := by
  obtain ⟨groups, h1, h2, h3⟩ := chunkLoop_groups B P [] [] (by simp)
  refine ⟨groups, ?_, by simpa using h2, h3⟩
  simpa [chunk_text, chunkWeight_nil] using h1

/-- The `chunk_text` loop agrees with the amended-boundary loop: the buffer
corresponds to the joined current chunk, and the counter trips the budget
exactly when the joined length would reach or exceed it. -/
theorem chunkLoop_eq_amendedLoop (B : Nat) (paras : List PyStr) :
    ∀ buffer chunks : List PyStr,
      chunkLoop B paras chunks buffer (chunkWeight buffer)
        = chunkAmendedLoop B paras chunks
            (if buffer = [] then none else some (joinNL buffer)) := by
  induction paras with
  | nil =>
    intro buffer chunks
    by_cases hb : buffer = [] <;> simp [chunkLoop, chunkAmendedLoop, hb]
  | cons para rest ih =>
    intro buffer chunks
    by_cases hb : buffer = []
    · subst hb
      have hcond : ¬(B < chunkWeight ([] : List PyStr) + para.length + 1
          ∧ ([] : List PyStr) ≠ []) := by simp
      have h0 : chunkLoop B (para :: rest) chunks [] (chunkWeight [])
          = chunkLoop B rest chunks [para] (chunkWeight [para]) := by
        simp only [chunkLoop]
        rw [if_neg hcond]
        simp [chunkWeight_nil, chunkWeight_single]
      rw [if_pos rfl, h0, ih [para] chunks]
      simp [chunkAmendedLoop, joinNL_single]
    · rw [if_neg hb]
      have hlen : (joinNL buffer).length + 1 = chunkWeight buffer :=
        joinNL_length buffer hb
      have hjlen : (joinNL buffer ++ [NL] ++ para).length
          = (joinNL buffer).length + 1 + para.length := by simp; omega
      by_cases hc : B < chunkWeight buffer + para.length + 1
      · have h1 : chunkLoop B (para :: rest) chunks buffer (chunkWeight buffer)
            = chunkLoop B rest (chunks ++ [joinNL buffer]) [para] (chunkWeight [para]) := by
          simp only [chunkLoop, chunkWeight_single]
          rw [if_pos ⟨hc, hb⟩]
        have h2 : B ≤ (joinNL buffer ++ [NL] ++ para).length := by omega
        have hr : chunkAmendedLoop B (para :: rest) chunks (some (joinNL buffer))
            = chunkAmendedLoop B rest (chunks ++ [joinNL buffer]) (some para) := by
          simp only [chunkAmendedLoop]
          rw [if_pos h2]
        rw [h1, hr]
        simpa [joinNL_single] using ih [para] (chunks ++ [joinNL buffer])
      · have hc' : ¬(B < chunkWeight buffer + (para.length + 1) ∧ buffer ≠ []) := by
          rw [← Nat.add_assoc]; exact fun h => hc h.1
        have h1 : chunkLoop B (para :: rest) chunks buffer (chunkWeight buffer)
            = chunkLoop B rest chunks (buffer ++ [para]) (chunkWeight (buffer ++ [para])) := by
          simp only [chunkLoop, chunkWeight_append_single, Nat.add_assoc]
          rw [if_neg hc']
        have h2 : ¬(B ≤ (joinNL buffer ++ [NL] ++ para).length) := by omega
        have hr : chunkAmendedLoop B (para :: rest) chunks (some (joinNL buffer))
            = chunkAmendedLoop B rest chunks (some (joinNL buffer ++ [NL] ++ para)) := by
          simp only [chunkAmendedLoop]
          rw [if_neg h2]
        rw [h1, hr, ih (buffer ++ [para]) chunks]
        rw [if_neg (by simp), joinNL_append_single buffer para hb]

/-- C1 (counterexample): a non-empty paragraph that itself contains a
newline defeats the split-and-concatenate round trip, so the claim as
stated — quantified over all non-empty paragraph strings — fails. -/
theorem chunk_roundtrip_counterexample :
    ((chunk_text [['a', NL, 'b']] 10).map (fun c => c.splitOn NL)).flatten
      ≠ [['a', NL, 'b']] := by decide

/-- C1 (amended): for every list of non-empty, newline-free paragraphs and
every budget, splitting each chunk on newline and concatenating reproduces
the paragraph list exactly; moreover each chunk is the newline-join of one
or more consecutive input paragraphs, in order (and an empty input yields
zero chunks). -/
theorem chunk_roundtrip (P : List PyStr) (B : Nat) (hB : 0 < B)
    (hP : ∀ p ∈ P, p ≠ [] ∧ NL ∉ p) :
    ((chunk_text P B).map (fun c => c.splitOn NL)).flatten = P ∧
    ∃ groups : List (List PyStr), chunk_text P B = groups.map joinNL ∧
      groups.flatten = P ∧ ∀ g ∈ groups, g ≠ [] := by
  obtain ⟨groups, h1, h2, h3⟩ := chunk_text_groups P B
  constructor
  · rw [h1, List.map_map]
    have hcong : ∀ g ∈ groups, ((fun c => c.splitOn NL) ∘ joinNL) g = g := by
      intro g hg
      have hne := (h3 g hg).1
      have hmem : ∀ p ∈ g, NL ∉ p := by
        intro p hp
        have hpP : p ∈ P := h2 ▸ List.mem_flatten.mpr ⟨g, hg, hp⟩
        exact (hP p hpP).2
      simpa [Function.comp, joinNL] using List.splitOn_intercalate g NL hmem hne
    rw [List.map_congr_left hcong]
    simpa using h2
  · exact ⟨groups, h1, h2, fun g hg => (h3 g hg).1⟩

/-- C1 witness: the round trip on three concrete short paragraphs. -/
theorem chunk_roundtrip_witness :
    ((chunk_text [pyStr "short1", pyStr "short2", pyStr "short3"] 3500).map
        (fun c => c.splitOn NL)).flatten
      = [pyStr "short1", pyStr "short2", pyStr "short3"] :=
  (chunk_roundtrip [pyStr "short1", pyStr "short2", pyStr "short3"] 3500
    (by decide) (by decide)).1

/-- C3: no chunk exceeds the budget except a chunk that is a single input
paragraph whose own length exceeds the budget. -/
theorem chunk_budget_bound (P : List PyStr) (B : Nat) (hB : 0 < B)
    (hP : ∀ p ∈ P, p ≠ []) :
    ∀ c ∈ chunk_text P B, c.length ≤ B ∨ (c ∈ P ∧ B < c.length) := by
  obtain ⟨groups, h1, h2, h3⟩ := chunk_text_groups P B
  intro c hc
  rw [h1] at hc
  obtain ⟨g, hg, rfl⟩ := List.mem_map.mp hc
  by_cases hcb : (joinNL g).length ≤ B
  · exact Or.inl hcb
  · refine Or.inr ⟨?_, by omega⟩
    obtain ⟨hne, hbound⟩ := h3 g hg
    cases g with
    | nil => exact absurd rfl hne
    | cons p gs =>
      cases gs with
      | nil =>
        rw [joinNL_single]
        exact h2 ▸ List.mem_flatten.mpr ⟨[p], hg, by simp⟩
      | cons q gs' =>
        exfalso
        have hw := hbound (by simp)
        have hl := joinNL_length (p :: q :: gs') (by simp)
        omega

/-- C3 witness: with budget 2, the oversized paragraph `"aaa"` forms its own
chunk and is correctly classified by the bound. -/
theorem chunk_budget_bound_witness :
    (['a', 'a', 'a'] : PyStr).length ≤ 2 ∨
      ((['a', 'a', 'a'] : PyStr) ∈ [(['a', 'a', 'a'] : PyStr), ['b']] ∧
        2 < (['a', 'a', 'a'] : PyStr).length) :=
  chunk_budget_bound [['a', 'a', 'a'], ['b']] 2 (by decide) (by decide)
    ['a', 'a', 'a'] (by decide)

/-- C8 (counterexample): with budget 3 and paragraphs `"a"`, `"b"`, joining
would give `"a\nb"` of length exactly 3 — at the budget, not beyond it — yet
`chunk_text` starts a new chunk, contradicting the claimed boundary
condition (formalized by `chunk_text_claimed`). -/
theorem chunk_boundary_counterexample :
    chunk_text [['a'], ['b']] 3 = [['a'], ['b']] ∧
    chunk_text_claimed [['a'], ['b']] 3 = [['a', NL, 'b']] ∧
    chunk_text [['a'], ['b']] 3 ≠ chunk_text_claimed [['a'], ['b']] 3 := by
  decide

/-- C8 (amended): a new chunk begins exactly when the current chunk is
non-empty and appending the next paragraph (with its joining newline) would
make the joined length reach or exceed the budget; otherwise the paragraph
joins the current chunk.  `chunk_text` equals the chunker defined by that
boundary rule, on every input. -/
theorem chunk_boundary_amended (paragraphs : List PyStr) (max_chars : Nat) :
    chunk_text paragraphs max_chars = chunk_text_amended paragraphs max_chars := by
  have h := chunkLoop_eq_amendedLoop max_chars paragraphs [] []
  simpa [chunk_text, chunk_text_amended, chunkWeight_nil] using h

/-! String lemmas -/

theorem dropWhile_dropWhile (p : Char → Bool) (l : List Char) :
    (l.dropWhile p).dropWhile p = l.dropWhile p := by
  induction l with
  | nil => rfl
  | cons a l ih =>
    by_cases h : p a
    · rw [List.dropWhile_cons_of_pos h]; exact ih
    · rw [List.dropWhile_cons_of_neg h, List.dropWhile_cons_of_neg h]

theorem dropWhile_prefix_eq (p : Char → Bool) (t u : List Char) (hpre : t <+: u)
    (hu : u.dropWhile p = u) : t.dropWhile p = t := by
  cases t with
  | nil => rfl
  | cons a t' =>
    obtain ⟨r, hr⟩ := hpre
    subst hr
    by_cases h : p a
    · exfalso
      rw [List.cons_append, List.dropWhile_cons_of_pos h] at hu
      have hlen := congrArg List.length hu
      have hle : (List.dropWhile p (t' ++ r)).length ≤ (t' ++ r).length :=
        (List.dropWhile_suffix p).length_le
      simp at hlen hle
      omega
    · rw [List.dropWhile_cons_of_neg h]

/-- Python `strip()` is idempotent. -/
theorem pyStrip_idem (s : PyStr) : pyStrip (pyStrip s) = pyStrip s := by
  have f1 : (pyStrip s).reverse
      = (s.dropWhile Char.isWhitespace).reverse.dropWhile Char.isWhitespace := by
    simp [pyStrip]
  have f2 : pyStrip s <+: s.dropWhile Char.isWhitespace := by
    apply List.reverse_suffix.mp
    rw [f1]
    exact List.dropWhile_suffix _
  have f4 : (pyStrip s).dropWhile Char.isWhitespace = pyStrip s :=
    dropWhile_prefix_eq _ _ _ f2 (dropWhile_dropWhile _ _)
  calc pyStrip (pyStrip s)
      = (((pyStrip s).dropWhile Char.isWhitespace).reverse.dropWhile
          Char.isWhitespace).reverse := rfl
    _ = ((pyStrip s).reverse.dropWhile Char.isWhitespace).reverse := by rw [f4]
    _ = (((s.dropWhile Char.isWhitespace).reverse.dropWhile
          Char.isWhitespace).dropWhile Char.isWhitespace).reverse := by rw [f1]
    _ = ((s.dropWhile Char.isWhitespace).reverse.dropWhile
          Char.isWhitespace).reverse := by rw [dropWhile_dropWhile]
    _ = pyStrip s := rfl

/-! Shading lemmas -/

/-- Removing the `w:highlight` children never removes a `w:shd` child. -/
theorem filter_shd_filter_highlight (l : List RPrChild) :
    (l.filter (fun child => !child.isHighlight)).filter RPrChild.isShd
      = l.filter RPrChild.isShd := by
  rw [List.filter_filter]
  apply List.filter_congr
  intro x _
  cases x <;> rfl

/-- C2 (code bug): `apply_shading` removes only `w:highlight` children and
never an existing `w:shd`, so each application appends one more shading
value to the run — after two applications the run's `rPr` carries both
colors layered, not a single most-recent value. -/
theorem apply_shading_layering :
    (∀ (r : Run) (c : String),
        (apply_shading r c).rPr.filter RPrChild.isShd
          = r.rPr.filter RPrChild.isShd ++ [RPrChild.shd "clear" c]) ∧
    (apply_shading (apply_shading
        { text := pyStr "x", bold := false, rPr := [] } "FFF2CC") "DAEEF3").rPr
      = [RPrChild.shd "clear" "FFF2CC", RPrChild.shd "clear" "DAEEF3"] := by
  constructor
  · intro r c
    show ((r.rPr.filter (fun child => !child.isHighlight))
        ++ [RPrChild.shd "clear" c]).filter RPrChild.isShd = _
    rw [List.filter_append, filter_shd_filter_highlight]
    rfl
  · rfl

/-! Highlighting lemmas -/

/-- `highlight_quote` never changes any paragraph's text. -/
theorem highlight_quote_map_text (doc : List Paragraph) (q : PyStr) (c : String) :
    (highlight_quote doc q c).1.map Paragraph.text = doc.map Paragraph.text := by
  by_cases h : (pyStrip q).isEmpty
  · simp [highlight_quote, h]
  · simp only [highlight_quote, h, Bool.false_eq_true, if_false, List.map_map]
    apply List.map_congr_left
    intro p _
    by_cases hp : paraHit (pyLower (pyStrip q)) p <;>
      simp [hp, shadeParagraph, Function.comp]

/-- The `_apply_highlights` fold never changes any paragraph's text. -/
theorem apply_highlights_fold_text (ms : List QuoteMatch) :
    ∀ (doc : List Paragraph) (n : Nat),
      ((ms.foldl applyStep (doc, n)).1).map Paragraph.text = doc.map Paragraph.text := by
  induction ms with
  | nil => intro doc n; rfl
  | cons m rest ih =>
    intro doc n
    rw [List.foldl_cons]
    have hstep : applyStep (doc, n) m
        = ((highlight_quote doc m.quote (categoryColor m.category)).1,
            n + if (highlight_quote doc m.quote (categoryColor m.category)).2
              then 1 else 0) := rfl
    rw [hstep, ih]
    exact highlight_quote_map_text doc m.quote (categoryColor m.category)

/-- C7: the text of every pre-existing paragraph is unchanged by applying
any sequence of highlight matches — only run styling is mutated — and the
legend is a pure append of the legend paragraphs at the end. -/
theorem text_content_invariance (doc : List Paragraph) (ms : List QuoteMatch) :
    ((apply_highlights doc ms).1).map Paragraph.text = doc.map Paragraph.text ∧
    (∀ d : List Paragraph, append_legend d = d ++ legendParas) :=
  ⟨apply_highlights_fold_text ms doc 0, fun _ => rfl⟩

/-- A paragraph with no styling runs is unchanged by shading. -/
theorem shadeParagraph_runs_nil (p : Paragraph) (c : String) (h : p.runs = []) :
    shadeParagraph p c = p := by
  cases p with
  | mk t runs =>
    simp only at h
    subst h
    rfl

/-- C4: for a quote that is non-empty after trimming, `highlight_quote`
shades every run of exactly the paragraphs whose non-empty trimmed text
contains the trimmed quote case-insensitively, returns true iff at least
one paragraph matched, and leaves the document untouched when it returns
false. -/
theorem highlight_quote_contract (doc : List Paragraph) (quote : PyStr)
    (color : String) (h : pyStrip quote ≠ []) :
    ((highlight_quote doc quote color).2 = true
        ↔ ∃ p ∈ doc, paraHit (pyLower (pyStrip quote)) p = true) ∧
    (∀ i : Nat, (highlight_quote doc quote color).1[i]?
        = (doc[i]?).map (fun p =>
            if paraHit (pyLower (pyStrip quote)) p then shadeParagraph p color
            else p)) ∧
    ((highlight_quote doc quote color).2 = false
        → (highlight_quote doc quote color).1 = doc) := by
  have hne : (pyStrip quote).isEmpty = false := List.isEmpty_eq_false.mpr h
  have h1 : (highlight_quote doc quote color).1
      = doc.map (fun p =>
          if paraHit (pyLower (pyStrip quote)) p then shadeParagraph p color
          else p) := by
    simp [highlight_quote, hne]
  have h2 : (highlight_quote doc quote color).2
      = doc.any (paraHit (pyLower (pyStrip quote))) := by
    simp [highlight_quote, hne]
  refine ⟨?_, ?_, ?_⟩
  · rw [h2]
    exact List.any_eq_true
  · intro i
    rw [h1]
    exact List.getElem?_map _ doc i
  · intro hfalse
    rw [h2] at hfalse
    have hnone := List.any_eq_false.mp hfalse
    rw [h1]
    have : ∀ p ∈ doc,
        (if paraHit (pyLower (pyStrip quote)) p then shadeParagraph p color
          else p) = p := by
      intro p hp
      rw [if_neg]
      simpa using hnone p hp
    rw [List.map_congr_left this]
    simp

/-- C4 witness: `"brown fox"` is found case-insensitively in the paragraph
`"The quick Brown fox"`, so `highlight_quote` reports true. -/
theorem highlight_quote_contract_witness :
    (highlight_quote
        [{ text := pyStr "The quick Brown fox",
           runs := [{ text := pyStr "The quick Brown fox", bold := false,
                      rPr := [] }] }]
        (pyStr "brown fox") "FFF2CC").2 = true :=
  (highlight_quote_contract
      [{ text := pyStr "The quick Brown fox",
         runs := [{ text := pyStr "The quick Brown fox", bold := false,
                    rPr := [] }] }]
      (pyStr "brown fox") "FFF2CC" (by decide)).1.mpr
    ⟨{ text := pyStr "The quick Brown fox",
       runs := [{ text := pyStr "The quick Brown fox", bold := false,
                  rPr := [] }] },
      by simp, by decide⟩

/-- C10 (implicit): if some paragraph matches the trimmed quote but every
matching paragraph has an empty run collection (as happens when its text
lives in hyperlink runs that `paragraph.runs` omits), `highlight_quote`
still returns true while the document is left completely unchanged — a true
result guarantees a matching paragraph, not that any styling was
modified. -/
theorem highlight_true_without_marking (doc : List Paragraph) (quote : PyStr)
    (color : String) (hq : pyStrip quote ≠ [])
    (hsome : ∃ p ∈ doc, paraHit (pyLower (pyStrip quote)) p = true)
    (hall : ∀ p ∈ doc, paraHit (pyLower (pyStrip quote)) p = true → p.runs = []) :
    (highlight_quote doc quote color).2 = true ∧
    (highlight_quote doc quote color).1 = doc := by
  have hne : (pyStrip quote).isEmpty = false := List.isEmpty_eq_false.mpr hq
  constructor
  · have h2 : (highlight_quote doc quote color).2
        = doc.any (paraHit (pyLower (pyStrip quote))) := by
      simp [highlight_quote, hne]
    rw [h2]
    exact List.any_eq_true.mpr hsome
  · have h1 : (highlight_quote doc quote color).1
        = doc.map (fun p =>
            if paraHit (pyLower (pyStrip quote)) p then shadeParagraph p color
            else p) := by
      simp [highlight_quote, hne]
    rw [h1]
    have heach : ∀ p ∈ doc,
        (if paraHit (pyLower (pyStrip quote)) p then shadeParagraph p color
          else p) = p := by
      intro p hp
      by_cases hhit : paraHit (pyLower (pyStrip quote)) p
      · rw [if_pos hhit]
        exact shadeParagraph_runs_nil p color (hall p hp hhit)
      · rw [if_neg hhit]
    rw [List.map_congr_left heach]
    simp

/-- C10 witness: a document whose single paragraph reports the text
`"Hello world"` but owns no runs is matched by the quote `"hello"`:
`highlight_quote` returns true and the document is unchanged. -/
theorem highlight_true_without_marking_witness :
    (highlight_quote [{ text := pyStr "Hello world", runs := [] }]
        (pyStr "hello") "FFF2CC").2 = true ∧
    (highlight_quote [{ text := pyStr "Hello world", runs := [] }]
        (pyStr "hello") "FFF2CC").1
      = [{ text := pyStr "Hello world", runs := [] }] :=
  highlight_true_without_marking [{ text := pyStr "Hello world", runs := [] }]
    (pyStr "hello") "FFF2CC" (by decide)
    ⟨{ text := pyStr "Hello world", runs := [] }, by simp, by decide⟩
    (by intro p hp _; simp at hp; rw [hp])

/-! Response parsing lemmas -/

/-- Unfolding of `parse_matches` with its `let` bindings expanded. -/
theorem parse_matches_eq (parsed : ParsedResponse) :
    parse_matches parsed
      = (parsed.matchList.map (fun item =>
          if categoryCodes.contains (pyUpper (pyStrip item.category)) then
            item.quotes.filterMap (fun q =>
              if (pyStrip (q.getD [])).isEmpty then none
              else some { category := pyUpper (pyStrip item.category),
                          quote := pyStrip (q.getD []) })
          else [])).flatten := rfl

/-- C5: categories are trimmed and upper-cased; entries outside the eight
codes are silently dropped; quotes are trimmed and dropped when empty; every
surviving pair yields exactly one QuoteMatch, in response order.  The first
three conjuncts evaluate the spec's examples, the fourth is order/
concatenation compatibility, the last is soundness of every produced
match. -/
theorem parse_matches_contract :
    (parse_matches { matchList :=
        [{ category := pyStr "a", quotes := [some (pyStr "Hello world")] }] }
      = [{ category := pyStr "A", quote := pyStr "Hello world" }]) ∧
    (parse_matches { matchList :=
        [{ category := pyStr "Z", quotes := [some (pyStr "Hello world")] }] }
      = []) ∧
    (parse_matches { matchList :=
        [{ category := pyStr " b ", quotes := [some (pyStr "   "), none] }] }
      = []) ∧
    (∀ items1 items2 : List MatchEntry,
        parse_matches { matchList := items1 ++ items2 }
          = parse_matches { matchList := items1 }
            ++ parse_matches { matchList := items2 }) ∧
    (∀ parsed : ParsedResponse, ∀ m ∈ parse_matches parsed,
        m.category ∈ categoryCodes ∧ m.quote ≠ [] ∧ pyStrip m.quote = m.quote ∧
        ∃ item ∈ parsed.matchList,
          m.category = pyUpper (pyStrip item.category) ∧
          ∃ q ∈ item.quotes, m.quote = pyStrip (q.getD [])) := by
  refine ⟨by decide, by decide, by decide, ?_, ?_⟩
  · intro items1 items2
    simp [parse_matches_eq]
  · intro parsed m hm
    rw [parse_matches_eq] at hm
    obtain ⟨l, hl, hml⟩ := List.mem_flatten.mp hm
    obtain ⟨item, hitem, rfl⟩ := List.mem_map.mp hl
    by_cases hcat : categoryCodes.contains (pyUpper (pyStrip item.category))
    · rw [if_pos hcat] at hml
      obtain ⟨q, hq, hgq⟩ := List.mem_filterMap.mp hml
      by_cases hemp : (pyStrip (q.getD [])).isEmpty
      · rw [if_pos hemp] at hgq
        exact absurd hgq (by simp)
      · rw [if_neg hemp] at hgq
        obtain rfl := (Option.some_inj.mp hgq).symm
        refine ⟨List.elem_iff.mp hcat, ?_, pyStrip_idem _, item, hitem, rfl, q, hq, rfl⟩
        simpa [List.isEmpty_eq_false] using hemp
    · rw [if_neg hcat] at hml
      exact absurd hml (List.not_mem_nil m)

/-- C5 witness: the soundness clause applied to the spec's example response,
whose single produced match is `{category := "A", quote := "Hello world"}`. -/
theorem parse_matches_contract_witness :
    ({ category := pyStr "A", quote := pyStr "Hello world" } : QuoteMatch).category
        ∈ categoryCodes ∧
    ({ category := pyStr "A", quote := pyStr "Hello world" } : QuoteMatch).quote ≠ [] ∧
    pyStrip ({ category := pyStr "A", quote := pyStr "Hello world" } : QuoteMatch).quote
      = ({ category := pyStr "A", quote := pyStr "Hello world" } : QuoteMatch).quote ∧
    ∃ item ∈ ({ matchList :=
        [{ category := pyStr "a", quotes := [some (pyStr "Hello world")] }] }
        : ParsedResponse).matchList,
      ({ category := pyStr "A", quote := pyStr "Hello world" } : QuoteMatch).category
          = pyUpper (pyStrip item.category) ∧
      ∃ q ∈ item.quotes,
        ({ category := pyStr "A", quote := pyStr "Hello world" } : QuoteMatch).quote
          = pyStrip (q.getD []) :=
  parse_matches_contract.2.2.2.2
    { matchList := [{ category := pyStr "a", quotes := [some (pyStr "Hello world")] }] }
    { category := pyStr "A", quote := pyStr "Hello world" }
    (by decide)

/-! Orchestrator lemmas -/

/-- If the response for the `j`-th remaining chunk is the first whose
content fails to decode as JSON, the chunk loop aborts with the error
carrying that response's raw content. -/
theorem codeChunksDyn_error (oracle : Nat → ChunkResponseDyn) :
    ∀ (chunks : List PyStr) (i j : Nat), j < chunks.length →
      (oracle (i + j)).decoded = none →
      (∀ k < j, ∃ ms, code_chunk_dyn (oracle (i + k)) = Except.ok ms) →
      codeChunksDyn oracle chunks i
        = Except.error (PipelineErrorDyn.malformedResponse (oracle (i + j)).raw) := by
  intro chunks
  induction chunks with
  | nil =>
    intro i j hj
    simp at hj
  | cons c rest ih =>
    intro i j hj hfail hok
    cases j with
    | zero =>
      simp only [Nat.add_zero] at hfail
      simp [codeChunksDyn, code_chunk_dyn, hfail]
    | succ j' =>
      have h0 := hok 0 (Nat.succ_pos j')
      simp only [Nat.add_zero] at h0
      obtain ⟨ms, hms⟩ := h0
      have e1 : i + 1 + j' = i + (j' + 1) := by omega
      have hrec := ih (i + 1) j' (by simpa using hj)
        (by rw [e1]; exact hfail)
        (by
          intro k hk
          have h := hok (k + 1) (by omega)
          have e2 : i + (k + 1) = i + 1 + k := by omega
          rwa [e2] at h)
      rw [e1] at hrec
      simp [codeChunksDyn, hms, hrec]

/-- If every chunk's response decodes and parses to zero matches, the chunk
loop returns an empty match list. -/
theorem codeChunks_ok_nil (oracle : Nat → ChunkResponse) :
    ∀ (chunks : List PyStr) (i : Nat),
      (∀ j < chunks.length, ∃ parsed,
          (oracle (i + j)).decoded = some parsed ∧ parse_matches parsed = []) →
      codeChunks oracle chunks i = Except.ok [] := by
  intro chunks
  induction chunks with
  | nil => intro i _; rfl
  | cons c rest ih =>
    intro i hall
    obtain ⟨parsed, hp, hpm⟩ := hall 0 (Nat.succ_pos _)
    simp only [Nat.add_zero] at hp
    have hrec := ih (i + 1) (by
      intro j hj
      obtain ⟨parsed', hp', hpm'⟩ := hall (j + 1) (by simpa using hj)
      have e : i + (j + 1) = i + 1 + j := by omega
      rw [e] at hp'
      exact ⟨parsed', hp', hpm'⟩)
    simp [codeChunks, code_chunk, hp, hpm, hrec]

/-- C6 (counterexample): decodable content that violates the expected
schema is not given the claimed treatment.  With `quotes` bound to the
string `"Hi"`, `_code_chunk` silently iterates its characters: the run
raises nothing, produces per-character matches, completes with 2 applied
highlights and writes the output document.  With a top-level JSON list,
`parsed.get` raises a payload-free `AttributeError` — not the error
carrying the raw content. -/
theorem schema_violation_counterexample :
    code_chunk_dyn { raw := pyStr "ignored", decoded := some strQuotesResponse }
      = Except.ok [{ category := pyStr "A", quote := pyStr "H" },
                   { category := pyStr "A", quote := pyStr "i" }] ∧
    (process_document_dyn docHi
        (fun _ => { raw := pyStr "ignored",
                    decoded := some strQuotesResponse })).map (fun r => r.2)
      = Except.ok 2 ∧
    process_document_dyn docHi
        (fun _ => { raw := pyStr "ignored", decoded := some topListResponse })
      = Except.error (PipelineErrorDyn.dynError DynError.attributeError) :=
  ⟨rfl, rfl, rfl⟩

/-- C6 (amended): when the remote call's content for some chunk cannot be
decoded as JSON (and every earlier chunk was coded without error), the
pipeline aborts with the error carrying that raw payload —
`process_document_dyn` returns `Except.error (malformedResponse raw)`, so
no output document is produced: `document.save` only runs on the success
path, at the very end.  Decodable but schema-violating content is excluded:
it is either silently tolerated or aborts with a payload-free error. -/
theorem undecodable_response_aborts (doc : List Paragraph)
    (oracle : Nat → ChunkResponseDyn) (j : Nat)
    (hj : j < (chunk_text (extractParagraphs doc) 3500).length)
    (hfail : (oracle j).decoded = none)
    (hbefore : ∀ k < j, ∃ ms, code_chunk_dyn (oracle k) = Except.ok ms) :
    process_document_dyn doc oracle
      = Except.error (PipelineErrorDyn.malformedResponse (oracle j).raw) := by
  have hne : extractParagraphs doc ≠ [] := by
    intro h0
    rw [h0] at hj
    simp [chunk_text, chunkLoop] at hj
  have herr := codeChunksDyn_error oracle
    (chunk_text (extractParagraphs doc) 3500)
    0 j hj (by simpa using hfail) (by intro k hk; simpa using hbefore k hk)
  have hEmp : (extractParagraphs doc).isEmpty = false :=
    List.isEmpty_eq_false.mpr hne
  simp only [Nat.zero_add] at herr
  simp [process_document_dyn, hEmp, herr]

/-- C6 witness: a one-paragraph document whose single chunk's response is
undecodable aborts with the raw payload `"oops"`. -/
theorem undecodable_response_aborts_witness :
    process_document_dyn [{ text := pyStr "hello", runs := [] }]
        (fun _ => { raw := pyStr "oops", decoded := none })
      = Except.error (PipelineErrorDyn.malformedResponse (pyStr "oops")) :=
  undecodable_response_aborts [{ text := pyStr "hello", runs := [] }]
    (fun _ => { raw := pyStr "oops", decoded := none }) 0
    (by decide) rfl (by intro k hk; exact absurd hk (by omega))

/-- C9: when every chunk's response decodes to zero matches, the run does
not fail: highlighting is skipped, the legend is still appended, and the
saved output is exactly the input document plus the legend block, with an
applied-highlight count of 0. -/
theorem zero_match_run (doc : List Paragraph) (oracle : Nat → ChunkResponse)
    (hne : extractParagraphs doc ≠ [])
    (hall : ∀ j < (chunk_text (extractParagraphs doc) 3500).length,
        ∃ parsed, (oracle j).decoded = some parsed ∧ parse_matches parsed = []) :
    process_document doc oracle = Except.ok (doc ++ legendParas, 0) := by
  have hok := codeChunks_ok_nil oracle (chunk_text (extractParagraphs doc) 3500)
    0 (by intro j hj; simpa using hall j hj)
  have hEmp : (extractParagraphs doc).isEmpty = false :=
    List.isEmpty_eq_false.mpr hne
  simp [process_document, hEmp, hok, append_legend]

/-- C9 witness: a one-paragraph document with an all-empty classification
response is saved as the original document plus the legend, count 0. -/
theorem zero_match_run_witness :
    process_document [{ text := pyStr "hello", runs := [] }]
        (fun _ => { raw := pyStr "", decoded := some { matchList := [] } })
      = Except.ok ([{ text := pyStr "hello", runs := [] }] ++ legendParas, 0) :=
  zero_match_run [{ text := pyStr "hello", runs := [] }]
    (fun _ => { raw := pyStr "", decoded := some { matchList := [] } })
    (by decide)
    (by intro j hj; exact ⟨{ matchList := [] }, rfl, rfl⟩)
